import Mathlib

/-!
Shallow embedding of the analytic core of `src/app.py` (a stock-analysis
dashboard): the support/resistance level detector `calculate_sr_levels`,
the Graham-style PE multiple heuristic, the 5-period DCF valuation and the
historical CAGR estimator `calculate_historical_cagr`.

Prices, rates and multiples are modelled as rationals (`ℚ`); the fractional
exponent `(e/s) ** (1/num_years)` of the CAGR computation is modelled with
real `rpow`.  Python's `ZeroDivisionError` on the DCF terminal-value divisor
is modelled by an `Option`-returning wrapper.
-/

namespace StockAnalyzer

/-- One bar of the price history.  `calculate_sr_levels` reads only the
`Low` and `High` columns of the data frame, so only those two fields are
modelled. -/
structure Bar where
  low : ℚ
  high : ℚ
deriving DecidableEq

/-- The `Low` value at positional index `i` (out-of-range reads never happen
on the guarded index range). -/
def lowAt (df : List Bar) (i : ℕ) : ℚ := (df.getD i ⟨0, 0⟩).low

/-- The `High` value at positional index `i`. -/
def highAt (df : List Bar) (i : ℕ) : ℚ := (df.getD i ⟨0, 0⟩).high

/-- A detected level: `{'price': ..., 'strength': ...}` in `app.py`. -/
structure PriceLevel where
  price : ℚ
  strength : ℕ
deriving DecidableEq

/-- Local-low (support candidate) test, `app.py` lines 111-112: the bar's
low is strictly below the lows of its two left and two right neighbours. -/
def isSupport (df : List Bar) (i : ℕ) : Prop :=
  lowAt df i < lowAt df (i - 1) ∧ lowAt df i < lowAt df (i + 1) ∧
  lowAt df i < lowAt df (i - 2) ∧ lowAt df i < lowAt df (i + 2)

/-- Local-high (resistance candidate) test, `app.py` lines 114-115. -/
def isResistance (df : List Bar) (i : ℕ) : Prop :=
  highAt df (i - 1) < highAt df i ∧ highAt df (i + 1) < highAt df i ∧
  highAt df (i - 2) < highAt df i ∧ highAt df (i + 2) < highAt df i

instance (df : List Bar) (i : ℕ) : Decidable (isSupport df i) := by
  unfold isSupport; exact inferInstance

instance (df : List Bar) (i : ℕ) : Decidable (isResistance df i) := by
  unfold isResistance; exact inferInstance

/-- The raw extrema candidates `(price, tag)` collected by the scan loop of
`calculate_sr_levels` (tag 1 = support, 2 = resistance), in scan order: the
loop runs `i = 2 .. len(df)-3` and, at each index, appends the support
candidate before the resistance candidate. -/
def candidates (df : List Bar) : List (ℚ × ℕ) :=
  ((List.range df.length).map (fun i =>
    if 2 ≤ i ∧ i + 2 < df.length then
      (if isSupport df i then [(lowAt df i, 1)] else []) ++
      (if isResistance df i then [(highAt df i, 2)] else [])
    else [])).flatten

/-- `levels.sort(key=lambda x: x[0])`: a stable ascending sort by price. -/
def sortedCandidates (df : List Bar) : List (ℚ × ℕ) :=
  List.insertionSort (fun a b => a.1 ≤ b.1) (candidates df)

/-- The running mean used by the merge loop:
`sum(x[0] for x in curr) / len(curr)`. -/
def clusterPrice (curr : List (ℚ × ℕ)) : ℚ :=
  (curr.map Prod.fst).sum / (curr.length : ℚ)

/-- The greedy merge loop of `calculate_sr_levels` (lines 122-130): a
candidate joins the running cluster `curr` when its relative distance from
the cluster's running mean is within `tol`; otherwise the cluster is emitted
as a `PriceLevel` and a fresh cluster is started.  The final cluster is
emitted when the input is exhausted. -/
def mergeLoop (tol : ℚ) : List (ℚ × ℕ) → List (ℚ × ℕ) → List PriceLevel
  | curr, [] => [⟨clusterPrice curr, curr.length⟩]
  | curr, p :: rest =>
    if |p.1 - clusterPrice curr| / clusterPrice curr ≤ tol then
      mergeLoop tol (curr ++ [p]) rest
    else
      ⟨clusterPrice curr, curr.length⟩ :: mergeLoop tol [p] rest

/-- `calculate_sr_levels(df, sensitivity)` from `app.py` lines 107-131. -/
def calculate_sr_levels (df : List Bar) (sensitivity : ℚ) : List PriceLevel :=
  match sortedCandidates df with
  | [] => []
  | l :: ls => mergeLoop sensitivity [l] ls

/-- Modelled from the spec: the greedy clustering described in §4.1 of the
specification, producing the clusters themselves ("maintain a running
cluster; a new candidate joins the current cluster if its distance from the
cluster's running mean, divided by that mean, is ≤ tolerance; otherwise the
current cluster is closed out and a new cluster starts").  Used to state the
refinement claim that the code emits exactly `mean`/`count` per cluster. -/
def gatherClusters (tol : ℚ) : List (ℚ × ℕ) → List (ℚ × ℕ) → List (List (ℚ × ℕ))
  | curr, [] => [curr]
  | curr, p :: rest =>
    if |p.1 - clusterPrice curr| / clusterPrice curr ≤ tol then
      gatherClusters tol (curr ++ [p]) rest
    else
      curr :: gatherClusters tol [p] rest

/-- The clusters of sorted candidates that the detector merges. -/
def clustersOf (df : List Bar) (tol : ℚ) : List (List (ℚ × ℕ)) :=
  match sortedCandidates df with
  | [] => []
  | l :: ls => gatherClusters tol [l] ls

/-- The Graham-style base PE multiple, `app.py` lines 209-210:
`base = 8.5 + 2*g`, overwritten with `g * 1.5` when `g > 25`. -/
def base_pe_multiplier (g : ℚ) : ℚ :=
  if 25 < g then g * 1.5 else 8.5 + 2 * g

/-- One PE valuation scenario (`pe_scenarios` dictionary values). -/
structure Scenario where
  pe : ℚ
  factor : ℚ
deriving DecidableEq

/-- The three scenarios of `app.py` lines 212-216, in bear/base/bull order:
only the bear multiple is floored at 10. -/
def pe_scenarios (basePE : ℚ) : List Scenario :=
  [⟨max 10 (basePE * 0.8), 0.8⟩, ⟨basePE, 1⟩, ⟨basePE * 1.2, 1.2⟩]

/-- `target_price = user_eps * data['pe']` (`app.py` line 242). -/
def target_price (eps pe : ℚ) : ℚ := eps * pe

/-- `upside = (target_price - curr_price) / curr_price * 100`
(`app.py` line 243); the code stores the upside in percent. -/
def upside (target curr : ℚ) : ℚ := (target - curr) / curr * 100

/-- The DCF projection loop (`app.py` lines 219-223): grows `temp_eps` by
the growth rate each of 5 periods and collects the discounted flows.
Returns the final grown EPS together with the flow list. -/
def dcfFold (eps g r : ℚ) : ℚ × List ℚ :=
  (List.range' 1 5).foldl
    (fun s i => (s.1 * (1 + g / 100), s.2 ++ [s.1 * (1 + g / 100) / (1 + r / 100) ^ i]))
    (eps, [])

/-- The list `dcf_flows` of the five discounted flows. -/
def dcf_flows (eps g r : ℚ) : List ℚ := (dcfFold eps g r).2

/-- The value of `temp_eps` after the loop (the period-5 grown EPS). -/
def final_eps (eps g r : ℚ) : ℚ := (dcfFold eps g r).1

/-- `term_val = (temp_eps * (1 + t/100)) / ((r - t)/100)` (`app.py` 224). -/
def term_val (eps g r t : ℚ) : ℚ :=
  final_eps eps g r * (1 + t / 100) / ((r - t) / 100)

/-- `dcf_value = sum(dcf_flows) + term_val / (1 + r/100)**5` (`app.py` 225). -/
def dcf_value (eps g r t : ℚ) : ℚ :=
  (dcf_flows eps g r).sum + term_val eps g r t / (1 + r / 100) ^ 5

/-- The metrics dictionary returned by `calculate_historical_cagr`
(`years` is set even when the growth rates default to 0). -/
structure FinMetrics where
  eps_cagr : ℝ
  rev_cagr : ℝ
  years : ℕ

/-- A model of the `income_stmt` DataFrame seen by
`calculate_historical_cagr`: the column labels (annual dates, modelled as
integers), the `Diluted EPS`, `Total Revenue` and `Total Income` rows when
present (label-indexed lookups), and the pandas `empty` flag. -/
structure FinTable where
  cols : List ℤ
  dilutedEPS : Option (ℤ → ℚ)
  totalRevenue : Option (ℤ → ℚ)
  totalIncome : Option (ℤ → ℚ)
  isEmpty : Bool

/-- The revenue row the code selects: `'Total Revenue'` when that label is
present, else `'Total Income'` (`app.py` line 98). -/
def revenueRow (t : FinTable) : Option (ℤ → ℚ) :=
  match t.totalRevenue with
  | some f => some f
  | none => t.totalIncome

/-- `financials.sort_index(axis=1, ascending=False)`: the column labels in
descending order (`app.py` line 82). -/
def sortedColsDesc (t : FinTable) : List ℤ :=
  List.insertionSort (fun a b : ℤ => b ≤ a) t.cols

/-- `latest = cols[0]` after the descending sort. -/
def latestCol (t : FinTable) : ℤ := (sortedColsDesc t).headD 0

/-- `oldest = cols[-1]` after the descending sort. -/
def oldestCol (t : FinTable) : ℤ := (sortedColsDesc t).getLastD 0

/-- `num_years = len(cols) - 1`. -/
def numYears (t : FinTable) : ℕ := (sortedColsDesc t).length - 1

/-- The compound growth rate `((e/s) ** (1/num_years) - 1) * 100`, with the
fractional exponent modelled by real `rpow`. -/
noncomputable def cagrOf (s e : ℚ) (ny : ℕ) : ℝ :=
  (((e / s : ℚ) : ℝ) ^ ((1 : ℝ) / (ny : ℝ)) - 1) * 100

/-- One row's CAGR as computed by the guarded blocks of
`calculate_historical_cagr`: 0 when the row is absent (the `try/except`
swallows the lookup failure) or when either endpoint is not strictly
positive. -/
noncomputable def rowCagr (row : Option (ℤ → ℚ)) (oldest latest : ℤ) (ny : ℕ) : ℝ :=
  match row with
  | none => 0
  | some f => if 0 < f oldest ∧ 0 < f latest then cagrOf (f oldest) (f latest) ny else 0

/-- `calculate_historical_cagr(financials)` from `app.py` lines 76-105. -/
noncomputable def calculate_historical_cagr (t : FinTable) : FinMetrics :=
  if t.isEmpty then ⟨0, 0, 0⟩
  else if 3 ≤ (sortedColsDesc t).length then
    ⟨rowCagr t.dilutedEPS (oldestCol t) (latestCol t) (numYears t),
     rowCagr (revenueRow t) (oldestCol t) (latestCol t) (numYears t),
     numYears t⟩
  else ⟨0, 0, 0⟩

/-- The spec's worked CAGR example: four annual columns (given unsorted to
exercise the descending sort), diluted EPS 1.00 in the oldest year and 2.00
in the newest. -/
def exampleEPSRow : ℤ → ℚ := fun y => if y = 2024 then 2 else 1

/-- The table for the worked example. -/
def exampleTable : FinTable :=
  ⟨[2021, 2024, 2022, 2023], some exampleEPSRow, none, none, false⟩

/-- The DCF computation with Python's division-by-zero behaviour made
explicit: Python raises `ZeroDivisionError` when a flow divisor
`(1 + r/100)` is zero or when the terminal-value divisor `(r - t)/100` is
zero; otherwise it returns the ordinary value.  `none` models the raised
exception. -/
def dcf_value_checked (eps g r t : ℚ) : Option ℚ :=
  if 1 + r / 100 = 0 then none
  else if (r - t) / 100 = 0 then none
  else some (dcf_value eps g r t)

end StockAnalyzer

namespace StockAnalyzer

instance : IsTotal (ℚ × ℕ) (fun a b => a.1 ≤ b.1) :=
  ⟨fun a b => le_total a.1 b.1⟩

instance : IsTrans (ℚ × ℕ) (fun a b => a.1 ≤ b.1) :=
  ⟨fun _ _ _ h h' => le_trans h h'⟩

/-- The sorted candidate list is sorted (non-strictly) by price. -/
lemma sortedCandidates_sorted (df : List Bar) :
    List.Pairwise (fun a b : ℚ × ℕ => a.1 ≤ b.1) (sortedCandidates df) :=
  List.sorted_insertionSort (fun a b : ℚ × ℕ => a.1 ≤ b.1) (candidates df)

/-- The sorted candidate list is a permutation of the raw candidates. -/
lemma sortedCandidates_perm (df : List Bar) :
    (sortedCandidates df).Perm (candidates df) :=
  List.perm_insertionSort (fun a b : ℚ × ℕ => a.1 ≤ b.1) (candidates df)

/-- A cluster's mean is at most any upper bound of its members' prices. -/
lemma clusterPrice_le (curr : List (ℚ × ℕ)) (hne : curr ≠ []) (c : ℚ)
    (h : ∀ x ∈ curr, x.1 ≤ c) : clusterPrice curr ≤ c := by
  have hlen : 0 < (curr.length : ℚ) := by
    exact_mod_cast List.length_pos.mpr hne
  rw [clusterPrice, div_le_iff₀ hlen]
  have hb : ∀ x ∈ curr.map Prod.fst, x ≤ c := by
    intro x hx
    obtain ⟨y, hy, rfl⟩ := List.mem_map.mp hx
    exact h y hy
  have := List.sum_le_card_nsmul (curr.map Prod.fst) c hb
  simpa [nsmul_eq_mul, mul_comm] using this

/-- A cluster's mean is at least any lower bound of its members' prices. -/
lemma le_clusterPrice (curr : List (ℚ × ℕ)) (hne : curr ≠ []) (c : ℚ)
    (h : ∀ x ∈ curr, c ≤ x.1) : c ≤ clusterPrice curr := by
  have hlen : 0 < (curr.length : ℚ) := by
    exact_mod_cast List.length_pos.mpr hne
  rw [clusterPrice, le_div_iff₀ hlen]
  have hb : ∀ x ∈ curr.map Prod.fst, c ≤ x := by
    intro x hx
    obtain ⟨y, hy, rfl⟩ := List.mem_map.mp hx
    exact h y hy
  have := List.card_nsmul_le_sum (curr.map Prod.fst) c hb
  simpa [nsmul_eq_mul, mul_comm] using this

/-- Every level emitted by the merge loop has price at least any common
lower bound of the pending candidates' prices. -/
lemma mergeLoop_price_lb (tol c : ℚ) :
    ∀ rest curr, curr ≠ [] → (∀ x ∈ curr, c ≤ x.1) → (∀ x ∈ rest, c ≤ x.1) →
      ∀ lvl ∈ mergeLoop tol curr rest, c ≤ lvl.price := by
  intro rest
  induction rest with
  | nil =>
    intro curr hne hc _ lvl hl
    simp only [mergeLoop, List.mem_singleton] at hl
    rw [hl]
    exact le_clusterPrice curr hne c hc
  | cons p rest ih =>
    intro curr hne hc hr lvl hl
    by_cases hcond : |p.1 - clusterPrice curr| / clusterPrice curr ≤ tol
    · rw [mergeLoop, if_pos hcond] at hl
      refine ih (curr ++ [p]) (by simp) ?_ (fun x hx => hr x (by simp [hx])) lvl hl
      intro x hx
      rcases List.mem_append.mp hx with h1 | h2
      · exact hc x h1
      · rw [List.mem_singleton.mp h2]
        exact hr p (by simp)
    · rw [mergeLoop, if_neg hcond] at hl
      rcases List.mem_cons.mp hl with h1 | h2
      · rw [h1]
        exact le_clusterPrice curr hne c hc
      · refine ih [p] (by simp) ?_ (fun x hx => hr x (by simp [hx])) lvl h2
        intro x hx
        rw [List.mem_singleton.mp hx]
        exact hr p (by simp)

/-- Core separation property of the merge loop: on a price-sorted input and
a nonnegative tolerance, the emitted levels are strictly increasing in price
and consecutive and non-consecutive levels alike are farther apart than the
tolerance, relative to the lower price. -/
lemma mergeLoop_separated (tol : ℚ) (htol : 0 ≤ tol) :
    ∀ rest curr, curr ≠ [] →
      List.Pairwise (fun a b : ℚ × ℕ => a.1 ≤ b.1) (curr ++ rest) →
      List.Pairwise
        (fun a b : PriceLevel => a.price < b.price ∧ tol < (b.price - a.price) / a.price)
        (mergeLoop tol curr rest) := by
  intro rest
  induction rest with
  | nil =>
    intro curr _ _
    simp [mergeLoop]
  | cons p rest ih =>
    intro curr hne hsort
    by_cases hcond : |p.1 - clusterPrice curr| / clusterPrice curr ≤ tol
    · rw [mergeLoop, if_pos hcond]
      refine ih (curr ++ [p]) (by simp) ?_
      rw [List.append_assoc]
      simpa using hsort
    · rw [mergeLoop, if_neg hcond]
      obtain ⟨hsc, hsp, hcross⟩ := List.pairwise_append.mp hsort
      have hcurr_le : ∀ x ∈ curr, x.1 ≤ p.1 := fun x hx => hcross x hx p (by simp)
      have havg_le : clusterPrice curr ≤ p.1 := clusterPrice_le curr hne p.1 hcurr_le
      have havg_pos : 0 < clusterPrice curr := by
        rcases lt_trichotomy (clusterPrice curr) 0 with h | h | h
        · exact absurd (le_trans (div_nonpos_iff.mpr (Or.inl ⟨abs_nonneg _, h.le⟩)) htol) hcond
        · exact absurd (by rw [h, div_zero]; exact htol) hcond
        · exact h
      have hratio : tol < (p.1 - clusterPrice curr) / clusterPrice curr := by
        have := not_le.mp hcond
        rwa [abs_of_nonneg (sub_nonneg.mpr havg_le)] at this
      have havg_lt_p : clusterPrice curr < p.1 := by
        have h1 : tol * clusterPrice curr < p.1 - clusterPrice curr :=
          (lt_div_iff₀ havg_pos).mp hratio
        nlinarith [mul_nonneg htol havg_pos.le]
      have hrest_ge : ∀ x ∈ rest, p.1 ≤ x.1 :=
        fun x hx => (List.pairwise_cons.mp hsp).1 x hx
      refine List.Pairwise.cons ?_ (ih [p] (by simp) (by simpa using hsp))
      intro b hb
      have hpb : p.1 ≤ b.price := by
        refine mergeLoop_price_lb tol p.1 rest [p] (by simp) ?_ hrest_ge b hb
        intro x hx
        rw [List.mem_singleton.mp hx]
      constructor
      · exact lt_of_lt_of_le havg_lt_p hpb
      · refine lt_of_lt_of_le hratio ?_
        rw [div_le_div_iff_of_pos_right havg_pos]
        exact sub_le_sub_right hpb _

/-- C6: levels emitted by the detector are mutually exclusive: any two
emitted prices p < q satisfy (q − p)/p > tolerance (for a nonnegative
tolerance), and the emitted list is strictly increasing in price. -/
theorem sr_levels_separated (df : List Bar) (tol : ℚ) (htol : 0 ≤ tol) :
    List.Pairwise
      (fun a b : PriceLevel => a.price < b.price ∧ tol < (b.price - a.price) / a.price)
      (calculate_sr_levels df tol) := by
  rw [calculate_sr_levels]
  rcases h : sortedCandidates df with _ | ⟨l, ls⟩
  · simp
  · refine mergeLoop_separated tol htol ls [l] (by simp) ?_
    have hs := sortedCandidates_sorted df
    rw [h] at hs
    simpa using hs

/-- The merge loop emits exactly one `PriceLevel` per greedy cluster, with
price the cluster mean and strength the cluster size. -/
lemma mergeLoop_eq_map (tol : ℚ) :
    ∀ rest curr,
      mergeLoop tol curr rest
        = (gatherClusters tol curr rest).map (fun c => ⟨clusterPrice c, c.length⟩) := by
  intro rest
  induction rest with
  | nil => intro curr; simp [mergeLoop, gatherClusters]
  | cons p rest ih =>
    intro curr
    rw [mergeLoop, gatherClusters]
    by_cases h : |p.1 - clusterPrice curr| / clusterPrice curr ≤ tol
    · rw [if_pos h, if_pos h, ih]
    · rw [if_neg h, if_neg h, List.map_cons, ih]

/-- The greedy clusters concatenate back to the input list. -/
lemma gatherClusters_flatten (tol : ℚ) :
    ∀ rest curr, (gatherClusters tol curr rest).flatten = curr ++ rest := by
  intro rest
  induction rest with
  | nil => intro curr; simp [gatherClusters]
  | cons p rest ih =>
    intro curr
    rw [gatherClusters]
    by_cases h : |p.1 - clusterPrice curr| / clusterPrice curr ≤ tol
    · rw [if_pos h, ih, List.append_assoc, List.singleton_append]
    · rw [if_neg h, List.flatten_cons, ih, List.singleton_append]

/-- C1: the detector's output is exactly one level per greedy cluster of the
price-sorted candidates — price equal to the arithmetic mean of the merged
extrema, strength equal to their count — where a candidate joins the running
cluster exactly when its distance from the running mean, divided by that
mean, is at most the tolerance; the clusters partition the sorted candidate
list. -/
theorem sr_levels_cluster_spec (df : List Bar) (tol : ℚ) :
    calculate_sr_levels df tol
        = (clustersOf df tol).map (fun c => ⟨clusterPrice c, c.length⟩)
    ∧ (clustersOf df tol).flatten = sortedCandidates df := by
  rw [calculate_sr_levels, clustersOf]
  rcases h : sortedCandidates df with _ | ⟨l, ls⟩
  · simp
  · exact ⟨mergeLoop_eq_map tol ls [l],
      by rw [gatherClusters_flatten, List.singleton_append]⟩

/-- If no candidates are found the detector returns the empty list. -/
lemma calculate_sr_levels_eq_nil (df : List Bar) (tol : ℚ)
    (h : candidates df = []) : calculate_sr_levels df tol = [] := by
  rw [calculate_sr_levels, sortedCandidates, h]
  rfl

/-- C8: with fewer than 5 bars, and likewise when no bar passes the strict
local-extremum test on the scanned index range, the detector returns an
empty list rather than an error. -/
theorem sr_empty_cases (df : List Bar) (tol : ℚ) :
    (df.length < 5 → calculate_sr_levels df tol = [])
    ∧ ((∀ i, 2 ≤ i → i + 2 < df.length → ¬isSupport df i ∧ ¬isResistance df i) →
        calculate_sr_levels df tol = []) := by
  constructor
  · intro hlen
    refine calculate_sr_levels_eq_nil df tol ?_
    rw [candidates, List.flatten_eq_nil_iff]
    intro l hl
    obtain ⟨i, _, rfl⟩ := List.mem_map.mp hl
    rw [if_neg]
    omega
  · intro hext
    refine calculate_sr_levels_eq_nil df tol ?_
    rw [candidates, List.flatten_eq_nil_iff]
    intro l hl
    obtain ⟨i, _, rfl⟩ := List.mem_map.mp hl
    by_cases hi : 2 ≤ i ∧ i + 2 < df.length
    · rw [if_pos hi, if_neg (hext i hi.1 hi.2).1, if_neg (hext i hi.1 hi.2).2]
      rfl
    · rw [if_neg hi]

/-- A 3-bar history: too short for the scan. -/
def df3 : List Bar := [⟨5, 10⟩, ⟨4, 10⟩, ⟨5, 10⟩]

/-- Witness for C8: on the 3-bar history both parts apply and the detector
returns the empty list. -/
theorem sr_empty_cases_witness :
    calculate_sr_levels df3 0.02 = [] ∧ calculate_sr_levels df3 0.02 = [] :=
  ⟨(sr_empty_cases df3 0.02).1 (by decide),
   (sr_empty_cases df3 0.02).2 (by intro i h1 h2; simp [df3] at h2; omega)⟩

/-- The merge loop at tolerance 0 on pairwise-distinct positive prices keeps
every candidate as its own singleton cluster. -/
lemma mergeLoop_zero_distinct :
    ∀ rest (q : ℚ × ℕ),
      (∀ p ∈ (q :: rest).map Prod.fst, 0 < p) →
      ((q :: rest).map Prod.fst).Pairwise (· ≠ ·) →
      (mergeLoop 0 [q] rest).length = rest.length + 1
      ∧ ∀ lvl ∈ mergeLoop 0 [q] rest, lvl.strength = 1 := by
  intro rest
  induction rest with
  | nil =>
    intro q _ _
    constructor
    · simp [mergeLoop]
    · intro lvl hl
      simp only [mergeLoop, List.mem_singleton] at hl
      rw [hl]
      rfl
  | cons p rest ih =>
    intro q hpos hnd
    have hq : clusterPrice [q] = q.1 := by
      simp [clusterPrice]
    have hne : p.1 ≠ q.1 := by
      have := (List.pairwise_cons.mp hnd).1 p.1 (by simp)
      exact fun h => this h.symm
    have hcond : ¬(|p.1 - clusterPrice [q]| / clusterPrice [q] ≤ 0) := by
      rw [hq]
      have hq0 : 0 < q.1 := hpos q.1 (by simp)
      have habs : 0 < |p.1 - q.1| := abs_pos.mpr (sub_ne_zero.mpr hne)
      exact not_le.mpr (div_pos habs hq0)
    rw [mergeLoop, if_neg hcond]
    have hpos' : ∀ x ∈ (p :: rest).map Prod.fst, 0 < x := by
      intro x hx
      exact hpos x (by simp at hx ⊢; tauto)
    have hnd' : ((p :: rest).map Prod.fst).Pairwise (· ≠ ·) :=
      (List.pairwise_cons.mp hnd).2
    obtain ⟨ihlen, ihstr⟩ := ih p hpos' hnd'
    constructor
    · rw [List.length_cons, ihlen]
      rfl
    · intro lvl hl
      rcases List.mem_cons.mp hl with h1 | h2
      · rw [h1]
        rfl
      · exact ihstr lvl h2

/-- C5 counterexample: a 9-bar history with two local lows at the same
price 1; at tolerance 0 the equal-priced extrema still merge (their
relative distance is 0 ≤ 0), so 2 raw extrema yield a single level. -/
def df9 : List Bar :=
  [⟨5, 10⟩, ⟨4, 10⟩, ⟨1, 10⟩, ⟨4, 10⟩, ⟨5, 10⟩, ⟨4, 10⟩, ⟨1, 10⟩, ⟨4, 10⟩, ⟨5, 10⟩]

/-- C5 counterexample theorem: on `df9` with tolerance 0 the number of
emitted levels (1) differs from the number of raw extrema (2). -/
theorem sr_tol_zero_counterexample :
    (candidates df9).length = 2
    ∧ (calculate_sr_levels df9 0).length = 1
    ∧ calculate_sr_levels df9 0 = [⟨1, 2⟩] := by
  have hs : sortedCandidates df9 = [(1, 1), (1, 1)] := by decide
  have hlv : calculate_sr_levels df9 0 = [⟨1, 2⟩] := by
    rw [calculate_sr_levels, hs]
    show mergeLoop 0 [(1, 1)] [(1, 1)] = [⟨1, 2⟩]
    rw [mergeLoop, if_pos (by norm_num [clusterPrice]), mergeLoop]
    norm_num [clusterPrice]
  exact ⟨by decide, by rw [hlv]; rfl, hlv⟩

/-- C5 amended: at tolerance 0, provided all raw extrema prices are
positive and pairwise distinct, no merging occurs: the detector emits one
level per raw extremum, each of strength 1. -/
theorem sr_tol_zero_distinct (df : List Bar)
    (hpos : ∀ p ∈ (candidates df).map Prod.fst, 0 < p)
    (hnd : ((candidates df).map Prod.fst).Nodup) :
    (calculate_sr_levels df 0).length = (candidates df).length
    ∧ ∀ lvl ∈ calculate_sr_levels df 0, lvl.strength = 1 := by
  have hperm : ((sortedCandidates df).map Prod.fst).Perm ((candidates df).map Prod.fst) :=
    (sortedCandidates_perm df).map Prod.fst
  have hpos' : ∀ p ∈ (sortedCandidates df).map Prod.fst, 0 < p :=
    fun p hp => hpos p (hperm.mem_iff.mp hp)
  have hnd' : ((sortedCandidates df).map Prod.fst).Nodup := hperm.nodup_iff.mpr hnd
  have hlen : (sortedCandidates df).length = (candidates df).length :=
    (sortedCandidates_perm df).length_eq
  rw [calculate_sr_levels]
  rcases h : sortedCandidates df with _ | ⟨l, ls⟩
  · rw [h] at hlen
    have : (candidates df).length = 0 := by simpa using hlen.symm
    simp [this]
  · rw [h] at hpos' hnd' hlen
    obtain ⟨hl1, hl2⟩ := mergeLoop_zero_distinct ls l hpos' hnd'
    refine ⟨?_, hl2⟩
    rw [hl1, ← hlen, List.length_cons]

/-- A 5-bar history with a single local low at price 1. -/
def df5 : List Bar := [⟨5, 10⟩, ⟨4, 10⟩, ⟨1, 10⟩, ⟨4, 10⟩, ⟨5, 10⟩]

/-- Witness for C5's amended claim on `df5`: one extremum, one level. -/
theorem sr_tol_zero_distinct_witness :
    (calculate_sr_levels df5 0).length = (candidates df5).length
    ∧ ∀ lvl ∈ calculate_sr_levels df5 0, lvl.strength = 1 :=
  sr_tol_zero_distinct df5 (by decide) (by decide)

/-- A 5-bar history with a local low at 1 and a local high at 100. -/
def df5b : List Bar := [⟨5, 10⟩, ⟨4, 10⟩, ⟨1, 100⟩, ⟨4, 10⟩, ⟨5, 10⟩]

/-- Witness for C6 at tolerance 0.02 on `df5b` (two emitted levels). -/
theorem sr_levels_separated_witness :
    List.Pairwise
      (fun a b : PriceLevel => a.price < b.price ∧ (0.02 : ℚ) < (b.price - a.price) / a.price)
      (calculate_sr_levels df5b 0.02) :=
  sr_levels_separated df5b 0.02 (by norm_num)

/-- C2: for every base EPS, growth g%, discount r% and terminal growth t%
with r > t, the DCF intrinsic value is the sum over periods 1..5 of
`EPS·(1+g/100)^i / (1+r/100)^i` plus the Gordon terminal value
`EPS·(1+g/100)^5·(1+t/100) / ((r−t)/100)` discounted by `(1+r/100)^5`; with
g = 0 and t = 0 it reduces to a flat-EPS annuity plus the discounted
perpetuity `EPS/(r/100)`, and at EPS = 1, r = 10% it equals 10. -/
theorem dcf_value_spec (eps g r t : ℚ) (h : t < r) :
    dcf_value eps g r t =
      (Finset.range 5).sum (fun i => eps * (1 + g / 100) ^ (i + 1) / (1 + r / 100) ^ (i + 1))
        + eps * (1 + g / 100) ^ 5 * (1 + t / 100) / ((r - t) / 100) / (1 + r / 100) ^ 5
    ∧ (g = 0 → t = 0 →
        dcf_value eps g r t =
          (Finset.range 5).sum (fun i => eps / (1 + r / 100) ^ (i + 1))
            + eps / (r / 100) / (1 + r / 100) ^ 5)
    ∧ dcf_value 1 0 10 0 = 10 := by
  refine ⟨?_, ?_, ?_⟩
  · simp only [dcf_value, dcf_flows, term_val, final_eps, dcfFold, List.range',
      List.foldl, List.sum_cons, List.sum_nil, List.append_nil, List.nil_append,
      List.cons_append, List.sum_append, Finset.sum_range_succ, Finset.sum_range_zero]
    ring
  · rintro rfl rfl
    simp only [dcf_value, dcf_flows, term_val, final_eps, dcfFold, List.range',
      List.foldl, List.sum_cons, List.sum_nil, List.append_nil, List.nil_append,
      List.cons_append, List.sum_append, Finset.sum_range_succ, Finset.sum_range_zero]
    ring
  · norm_num [dcf_value, dcf_flows, term_val, final_eps, dcfFold, List.range']

/-- Witness for C2 at the hand-computed point EPS = 1, g = 0%, r = 10%,
t = 0%: the intrinsic value is exactly 10. -/
theorem dcf_value_spec_witness : dcf_value 1 0 10 0 = 10 :=
  (dcf_value_spec 1 0 10 0 (by norm_num)).2.2

/-- C3: for growth at or below the 25% threshold the base multiple is
`8.5 + 2·g` (so g = 10 gives 28.5); strictly above it the PEG-anchored
`g × 1.5` replaces the linear formula (so g = 30 gives 45, not 68.5). -/
theorem base_pe_spec (g : ℚ) :
    (g ≤ 25 → base_pe_multiplier g = 8.5 + 2 * g)
    ∧ (25 < g → base_pe_multiplier g = g * 1.5)
    ∧ base_pe_multiplier 10 = 28.5
    ∧ base_pe_multiplier 30 = 45
    ∧ base_pe_multiplier 30 ≠ 8.5 + 2 * 30 := by
  refine ⟨fun h => ?_, fun h => ?_, ?_, ?_, ?_⟩
  · rw [base_pe_multiplier, if_neg (not_lt.mpr h)]
  · rw [base_pe_multiplier, if_pos h]
  · norm_num [base_pe_multiplier]
  · norm_num [base_pe_multiplier]
  · norm_num [base_pe_multiplier]

/-- Witness for C3: both branches evaluated, at g = 10 and g = 30. -/
theorem base_pe_spec_witness :
    base_pe_multiplier 10 = 8.5 + 2 * 10 ∧ base_pe_multiplier 30 = 30 * 1.5 :=
  ⟨(base_pe_spec 10).1 (by norm_num), (base_pe_spec 30).2.1 (by norm_num)⟩

/-- C4 counterexample: at r = 3% ≤ t = 4% the DCF computation neither
raises nor flags anything — it returns an ordinary value (the claim asserts
this cannot happen for any r ≤ t). -/
theorem dcf_no_guard_counterexample :
    (3 : ℚ) ≤ 4 ∧ dcf_value_checked 1 10 3 4 ≠ none := by
  refine ⟨by norm_num, ?_⟩
  rw [dcf_value_checked, if_neg (by norm_num), if_neg (by norm_num)]
  simp

/-- C4 amended: the DCF computation raises (division by zero) exactly when
the discount rate equals the terminal growth rate; for r strictly below t
it silently returns an ordinary (meaningless) value, so callers must
validate.  Stated away from the degenerate flow divisor r = −100%. -/
theorem dcf_checked_none_iff (eps g r t : ℚ) (hr : 1 + r / 100 ≠ 0) :
    dcf_value_checked eps g r t = none ↔ r = t := by
  rw [dcf_value_checked, if_neg hr]
  by_cases h : (r - t) / 100 = 0
  · have hrt : r = t := by
      have : r - t = 0 := by
        field_simp at h
        linarith
      linarith
    rw [if_pos h]
    simp [hrt]
  · have hrt : ¬r = t := by
      intro he
      exact h (by rw [he]; ring)
    rw [if_neg h]
    simp [hrt]

/-- Witness for C4's amended claim: at r = t = 3% the computation raises
(models `ZeroDivisionError`). -/
theorem dcf_checked_none_iff_witness : dcf_value_checked 1 10 3 3 = none :=
  (dcf_checked_none_iff 1 10 3 3 (by norm_num)).mpr rfl

/-- C9 counterexample: the stored upside is the percentage, not the raw
fraction `(target − current)/current` the claim states: at EPS = 1,
multiple 20, current price 10 the code stores 100, the claim's formula
gives 1. -/
theorem upside_percent_counterexample :
    upside (target_price 1 20) 10 ≠ (target_price 1 20 - 10) / 10 := by
  norm_num [upside, target_price]

/-- C9 amended: the scenario multiples are bear = max(10, 0.8·basePE),
base = basePE, bull = 1.2·basePE; each target price is EPS × multiple, and
each upside is `(target − currentPrice)/currentPrice` expressed in percent
(multiplied by 100). -/
theorem pe_scenarios_spec (basePE eps curr : ℚ) :
    (pe_scenarios basePE).map Scenario.pe = [max 10 (0.8 * basePE), basePE, 1.2 * basePE]
    ∧ ∀ s ∈ pe_scenarios basePE,
        target_price eps s.pe = eps * s.pe
        ∧ upside (target_price eps s.pe) curr = (eps * s.pe - curr) / curr * 100 := by
  constructor
  · simp only [pe_scenarios, List.map_cons, List.map_nil]
    rw [mul_comm basePE (0.8 : ℚ), mul_comm basePE (1.2 : ℚ)]
  · intro s _
    exact ⟨rfl, rfl⟩

/-- Witness for C9's amended claim at the base scenario of basePE = 20,
EPS = 1, current price 10. -/
theorem pe_scenarios_spec_witness :
    target_price 1 (Scenario.mk 20 1).pe = 1 * (Scenario.mk 20 1).pe
    ∧ upside (target_price 1 (Scenario.mk 20 1).pe) 10
        = (1 * (Scenario.mk 20 1).pe - 10) / 10 * 100 :=
  (pe_scenarios_spec 20 1 10).2 ⟨20, 1⟩ (by simp [pe_scenarios])

/-- C10: when `8.5 + 2·g < 10` (growth below 0.75%) the bear floor of 10
inverts the scenario ordering: the bear multiple and target strictly exceed
the base ones, and once basePE is also below 10/1.2 the bear target exceeds
even the bull target. -/
theorem bear_floor_inversion (g eps : ℚ) (heps : 0 < eps) (hg : 8.5 + 2 * g < 10) :
    ∃ bear base bull : Scenario,
      pe_scenarios (base_pe_multiplier g) = [bear, base, bull]
      ∧ base.pe < bear.pe
      ∧ target_price eps base.pe < target_price eps bear.pe
      ∧ (base_pe_multiplier g < 10 / 1.2 →
          target_price eps bull.pe < target_price eps bear.pe) := by
  have hb : base_pe_multiplier g = 8.5 + 2 * g := by
    rw [base_pe_multiplier, if_neg (not_lt.mpr (by linarith))]
  have hmax : max 10 (base_pe_multiplier g * 0.8) = 10 :=
    max_eq_left (by rw [hb]; linarith)
  refine ⟨_, _, _, rfl, ?_, ?_, ?_⟩
  · rw [hmax, hb]; linarith
  · rw [hmax, target_price, target_price, hb]
    have : (8.5 : ℚ) + 2 * g < 10 := hg
    exact mul_lt_mul_of_pos_left this heps
  · intro hbull
    rw [hmax, target_price, target_price]
    have h12 : base_pe_multiplier g * 1.2 < 10 := by linarith
    exact mul_lt_mul_of_pos_left h12 heps

/-- The real cube root of 2 lies strictly between 1.25985 and 1.25995. -/
lemma cbrt_two_bounds :
    1.25985 < (2 : ℝ) ^ ((1 : ℝ) / 3) ∧ (2 : ℝ) ^ ((1 : ℝ) / 3) < 1.25995 := by
  have hpos : (0 : ℝ) < (2 : ℝ) ^ ((1 : ℝ) / 3) :=
    Real.rpow_pos_of_pos (by norm_num) _
  have hcube : ((2 : ℝ) ^ ((1 : ℝ) / 3)) ^ (3 : ℕ) = 2 := by
    rw [← Real.rpow_natCast ((2 : ℝ) ^ ((1 : ℝ) / 3)) 3,
      ← Real.rpow_mul (by norm_num : (0 : ℝ) ≤ 2)]
    norm_num
  constructor
  · by_contra h
    push_neg at h
    have h3 : ((2 : ℝ) ^ ((1 : ℝ) / 3)) ^ (3 : ℕ) ≤ (1.25985 : ℝ) ^ (3 : ℕ) :=
      pow_le_pow_left₀ hpos.le h 3
    rw [hcube] at h3
    norm_num at h3
  · by_contra h
    push_neg at h
    have h3 : (1.25995 : ℝ) ^ (3 : ℕ) ≤ ((2 : ℝ) ^ ((1 : ℝ) / 3)) ^ (3 : ℕ) :=
      pow_le_pow_left₀ (by norm_num) h 3
    rw [hcube] at h3
    norm_num at h3

/-- On the worked example the estimator returns exactly the cube-root
growth rate `(2^(1/3) − 1)·100`. -/
lemma exampleTable_eps_cagr :
    (calculate_historical_cagr exampleTable).eps_cagr
      = ((2 : ℝ) ^ ((1 : ℝ) / 3) - 1) * 100 := by
  have hsorted : sortedColsDesc exampleTable = [2024, 2023, 2022, 2021] := by decide
  have hlatest : latestCol exampleTable = 2024 := by rw [latestCol, hsorted]; rfl
  have holdest : oldestCol exampleTable = 2021 := by rw [oldestCol, hsorted]; rfl
  have hny : numYears exampleTable = 3 := by rw [numYears, hsorted]; rfl
  rw [calculate_historical_cagr, if_neg (by decide), if_pos (by rw [hsorted]; norm_num)]
  show rowCagr exampleTable.dilutedEPS (oldestCol exampleTable) (latestCol exampleTable)
      (numYears exampleTable) = _
  rw [holdest, hlatest, hny,
    show exampleTable.dilutedEPS = some exampleEPSRow from rfl, rowCagr,
    if_pos (by norm_num [exampleEPSRow]), cagrOf]
  norm_num [exampleEPSRow]

/-- C7: the historical CAGR estimator computes
`((end/start)^(1/numYears) − 1)·100` on the newest and oldest annual
columns with `numYears` = number of columns minus one, but only when the
table has at least 3 columns and both endpoint values are strictly
positive; otherwise the metric is 0, and a missing line item yields 0
rather than a failure.  On the worked example (EPS 1.00 → 2.00 over 3
year-steps) the rate is ≈ 25.99%. -/
theorem cagr_spec :
    (∀ (t : FinTable) (row : ℤ → ℚ),
        t.isEmpty = false → t.dilutedEPS = some row → 3 ≤ t.cols.length →
        (calculate_historical_cagr t).years = t.cols.length - 1
        ∧ (0 < row (oldestCol t) → 0 < row (latestCol t) →
            (calculate_historical_cagr t).eps_cagr
              = (((row (latestCol t) / row (oldestCol t) : ℚ) : ℝ)
                  ^ ((1 : ℝ) / ((t.cols.length - 1 : ℕ) : ℝ)) - 1) * 100)
        ∧ (¬(0 < row (oldestCol t) ∧ 0 < row (latestCol t)) →
            (calculate_historical_cagr t).eps_cagr = 0))
    ∧ (∀ t : FinTable, t.isEmpty = false → t.cols.length < 3 →
        calculate_historical_cagr t = ⟨0, 0, 0⟩)
    ∧ (∀ t : FinTable, t.isEmpty = false → t.dilutedEPS = none →
        (calculate_historical_cagr t).eps_cagr = 0)
    ∧ 25.985 < (calculate_historical_cagr exampleTable).eps_cagr
    ∧ (calculate_historical_cagr exampleTable).eps_cagr < 25.995 := by
  have hlen : ∀ t : FinTable, (sortedColsDesc t).length = t.cols.length :=
    fun t => List.length_insertionSort _ _
  refine ⟨?_, ?_, ?_, ?_, ?_⟩
  · intro t row he hsome h3
    have hchar : calculate_historical_cagr t
        = ⟨rowCagr t.dilutedEPS (oldestCol t) (latestCol t) (numYears t),
           rowCagr (revenueRow t) (oldestCol t) (latestCol t) (numYears t),
           numYears t⟩ := by
      rw [calculate_historical_cagr, if_neg (by simp [he]),
        if_pos (by rw [hlen t]; exact h3)]
    have hny : numYears t = t.cols.length - 1 := by rw [numYears, hlen t]
    refine ⟨?_, ?_, ?_⟩
    · rw [hchar]
      exact hny
    · intro hs he2
      rw [hchar]
      show rowCagr t.dilutedEPS (oldestCol t) (latestCol t) (numYears t) = _
      rw [hsome, rowCagr, if_pos ⟨hs, he2⟩, cagrOf, hny]
    · intro hneg
      rw [hchar]
      show rowCagr t.dilutedEPS (oldestCol t) (latestCol t) (numYears t) = 0
      rw [hsome, rowCagr, if_neg hneg]
  · intro t he h3
    rw [calculate_historical_cagr, if_neg (by simp [he]),
      if_neg (by rw [hlen t]; omega)]
  · intro t he hnone
    rw [calculate_historical_cagr, if_neg (by simp [he])]
    by_cases h3 : 3 ≤ (sortedColsDesc t).length
    · rw [if_pos h3]
      show rowCagr t.dilutedEPS (oldestCol t) (latestCol t) (numYears t) = 0
      rw [hnone, rowCagr]
    · rw [if_neg h3]
  · rw [exampleTable_eps_cagr]
    have h := cbrt_two_bounds.1
    linarith
  · rw [exampleTable_eps_cagr]
    have h := cbrt_two_bounds.2
    linarith

/-- Witness for C7 at the worked example table: 3 year-steps reported and
the computed rate exceeds 25.985%. -/
theorem cagr_spec_witness :
    (calculate_historical_cagr exampleTable).years = 3
    ∧ 25.985 < (calculate_historical_cagr exampleTable).eps_cagr :=
  ⟨by
    have h := (cagr_spec.1 exampleTable exampleEPSRow rfl rfl (by norm_num [exampleTable])).1
    simpa [exampleTable] using h,
   cagr_spec.2.2.2.1⟩

/-- Witness for C10 at g = −1% (basePE = 6.5 < 10/1.2), EPS = 1. -/
theorem bear_floor_inversion_witness :
    ∃ bear base bull : Scenario,
      pe_scenarios (base_pe_multiplier (-1)) = [bear, base, bull]
      ∧ base.pe < bear.pe
      ∧ target_price 1 base.pe < target_price 1 bear.pe
      ∧ (base_pe_multiplier (-1) < 10 / 1.2 →
          target_price 1 bull.pe < target_price 1 bear.pe) :=
  bear_floor_inversion (-1) 1 (by norm_num) (by norm_num)

end StockAnalyzer
